import Mathlib

/-!
Verification of the ledgeracio allowlist tool's key handling.

This file shallowly embeds the key-handling code of the repository:

* the constants and the GenKey / SetKey / Sign arms of
  src/src/bin/ledgeracio-allowlist/main.rs, and its local file-writing
  helper, and
* the software keystore of src/src/softstore.rs (seed hashing, the
  BIP32-style derivation path, and the index guard of the signer).

Bytes are modelled as natural numbers (each below 256 on real data),
byte strings as lists of naturals.  External cryptographic primitives
(HMAC-SHA512 from the hmac/sha2 crates, and the ed25519-bip32 extended
private key operations) are taken as parameters, so every theorem below
holds for every implementation of those primitives; what is verified is
exactly the repository's own composition of them.
-/

namespace Ledgeracio

/-- The version of keys supported.  Source: main.rs, KEY_VERSION. -/
def KEY_VERSION : Nat := 1

/-- The magic number at the beginning of a secret key.  Source: main.rs,
KEY_MAGIC, the ASCII bytes of the string Ledgeracio Secret Key. -/
def KEY_MAGIC : List Nat :=
  [76, 101, 100, 103, 101, 114, 97, 99, 105, 111, 32,
   83, 101, 99, 114, 101, 116, 32, 75, 101, 121]

/-- The two networks the GenKey arm of main.rs accepts (its match on the
network has arms for KusamaAccount and PolkadotAccount only; every other
value is unreachable because the CLI layer rejected it earlier). -/
inductive Network where
  | kusama
  | polkadot
deriving DecidableEq

/-- The one-byte SS58 registry tag of a network, as produced by the
conversion from Ss58AddressFormat to u8 (Polkadot is 0, Kusama is 2). -/
def Network.toByte : Network → Nat
  | .kusama => 2
  | .polkadot => 0

/-- The human-readable network name used in the public key file banner
(main.rs, GenKey arm), as ASCII bytes. -/
def Network.nameBytes : Network → List Nat
  | .kusama => [75, 117, 115, 97, 109, 97]
  | .polkadot => [80, 111, 108, 107, 97, 100, 111, 116]

/-- The human-readable network name as a string, used in error messages
(the From Ss58AddressFormat for String conversion). -/
def Network.nameString : Network → String
  | .kusama => "Kusama"
  | .polkadot => "Polkadot"

/-- Little-endian serialization of a 16-bit value, as produced by
u16::to_le_bytes in the GenKey arm. -/
def u16ToLeBytes (n : Nat) : List Nat :=
  [n % 256, n / 256 % 256]

/-- One character of the standard base64 alphabet (A-Z, a-z, 0-9, +, /),
as an ASCII byte.  Models the alphabet used by base64::encode. -/
def b64Char (i : Nat) : Nat :=
  if i < 26 then 65 + i
  else if i < 52 then 97 + (i - 26)
  else if i < 62 then 48 + (i - 52)
  else if i = 62 then 43
  else 47

/-- Base64 encoding of a full 3-byte group into 4 alphabet characters. -/
def b64Group3 (a b c : Nat) : List Nat :=
  [b64Char (a / 4), b64Char (a % 4 * 16 + b / 16),
   b64Char (b % 16 * 4 + c / 64), b64Char (c % 64)]

/-- Base64 encoding of a trailing 2-byte group, padded with one '='. -/
def b64Group2 (a b : Nat) : List Nat :=
  [b64Char (a / 4), b64Char (a % 4 * 16 + b / 16), b64Char (b % 16 * 4), 61]

/-- Base64 encoding of a trailing 1-byte group, padded with two '='. -/
def b64Group1 (a : Nat) : List Nat :=
  [b64Char (a / 4), b64Char (a % 4 * 16), 61, 61]

/-- Standard base64 encoding with padding, as performed by
base64::encode in the GenKey and GetKey arms of main.rs. -/
def base64Encode : List Nat → List Nat
  | a :: b :: c :: rest => b64Group3 a b c ++ base64Encode rest
  | [a, b] => b64Group2 a b
  | [a] => b64Group1 a
  | [] => []

/-- The fixed prefix of the public key file banner, the ASCII bytes of
the string Ledgeracio version 1 public key for network followed by a
space (main.rs, GenKey arm, the format string). -/
def bannerPrefix : List Nat :=
  [76, 101, 100, 103, 101, 114, 97, 99, 105, 111, 32,
   118, 101, 114, 115, 105, 111, 110, 32, 49, 32,
   112, 117, 98, 108, 105, 99, 32, 107, 101, 121, 32,
   102, 111, 114, 32, 110, 101, 116, 119, 111, 114, 107, 32]

/-- The first line of the public key file: the banner naming the
network. -/
def bannerBytes (n : Network) : List Nat :=
  bannerPrefix ++ n.nameBytes

/-- The bytes of the public key file produced by the GenKey arm: the
format string interpolates the network name and the base64 public key,
each line terminated by a newline. -/
def publicFileBytes (n : Network) (publickey : List Nat) : List Nat :=
  bannerPrefix ++ n.nameBytes ++ [10] ++ base64Encode publickey ++ [10]

/-- The bytes of the secret key file produced by the GenKey arm: the
magic, the key version widened to u16 and serialized little-endian, the
one-byte network tag, the secret key bytes, the public key bytes. -/
def secretFileBytes (n : Network) (secretkey publickey : List Nat) : List Nat :=
  KEY_MAGIC ++ u16ToLeBytes KEY_VERSION ++ [n.toByte] ++ secretkey ++ publickey

/-- The hardened-derivation bit, 2^31.  Source: softstore.rs, HARDENED. -/
def HARDENED : Nat := 2 ^ 31

/-- A derivation index is hardened exactly when its top bit is set,
i.e. when it is at least 2^31. -/
def isHardened (i : Nat) : Prop := HARDENED ≤ i

instance (i : Nat) : Decidable (isHardened i) := by
  unfold isHardened
  infer_instance

/-- The fixed HMAC key used to hash the seed.  Source: softstore.rs,
the byte string literal Bitcoin seed. -/
def bitcoinSeedLabel : List Nat :=
  [66, 105, 116, 99, 111, 105, 110, 32, 115, 101, 101, 100]

/-- The operations of the external ed25519-bip32 crate on extended
private keys, taken as parameters of the embedding: building an extended
key from 32 bytes of key material and a 32-byte chain code
(XPrv::from_nonextended_force), deriving a child by a 32-bit index under
scheme V2 (XPrv::derive), and extracting the public key bytes
(XPrv::public().public_key()). -/
structure XPrvOps (X : Type) where
  fromNonextendedForce : List Nat → List Nat → X
  derive : X → Nat → X
  pubkey : X → List Nat

/-- The software keystore: an extended private key together with the
account identifier (public key bytes).  Source: softstore.rs,
SoftKeyStore(XPrv, AccountId). -/
structure SoftKeyStore (X : Type) where
  xprv : X
  accountId : List Nat

/-- The 32 bytes of key material for the master extended key: the first
half of the HMAC-SHA512 digest of the seed (softstore.rs, new, the
slice code[..32]). -/
def masterKeyMaterial (hmacSha512 : List Nat → List Nat → List Nat)
    (seed : List Nat) : List Nat :=
  (hmacSha512 bitcoinSeedLabel seed).take 32

/-- The 32-byte chain code for the master extended key: the second half
of the HMAC-SHA512 digest of the seed (softstore.rs, new, the slice
code[32..]). -/
def masterChainCode (hmacSha512 : List Nat → List Nat → List Nat)
    (seed : List Nat) : List Nat :=
  (hmacSha512 bitcoinSeedLabel seed).drop 32

/-- The derivation path applied by SoftKeyStore::new, in order: the
literal indices 0x8000002C and 0x80000162, the account type with the
bit 2^31 or-ed in, and the literal index 0. -/
def newDerivationPath (accountType : Nat) : List Nat :=
  [0x8000002C, 0x80000162, accountType ||| HARDENED, 0]

/-- SoftKeyStore::new: HMAC-SHA512 the seed with the fixed label, split
the digest into key material and chain code, build the master extended
key, derive along the fixed path, and pair the resulting private key
with the public key computed from it. -/
def SoftKeyStore.new {X : Type} (ops : XPrvOps X)
    (hmacSha512 : List Nat → List Nat → List Nat)
    (seed : List Nat) (accountType : Nat) : SoftKeyStore X :=
  let root := ops.fromNonextendedForce (masterKeyMaterial hmacSha512 seed)
    (masterChainCode hmacSha512 seed)
  let prv := (newDerivationPath accountType).foldl ops.derive root
  ⟨prv, ops.pubkey prv⟩

/-- SoftKeyStore::signer: reject indices with the hardened bit set with
an invalid-index error; otherwise derive the child at the index with the
hardened bit or-ed in and return it paired with its own public key. -/
def SoftKeyStore.signer {X : Type} (ops : XPrvOps X) (ks : SoftKeyStore X)
    (index : Nat) : Except String (SoftKeyStore X) :=
  if HARDENED ≤ index then
    .error ("Invalid index " ++ toString index)
  else
    let prv := ops.derive ks.xprv (index ||| HARDENED)
    .ok ⟨prv, ops.pubkey prv⟩

/-- The full derivation from a seed to a signing keypair, as the
repository composes it: build the account-type keystore with
SoftKeyStore::new, then select the signing identity with
SoftKeyStore::signer. -/
def deriveKeypair {X : Type} (ops : XPrvOps X)
    (hmacSha512 : List Nat → List Nat → List Nat)
    (seed : List Nat) (accountType index : Nat) :
    Except String (SoftKeyStore X) :=
  SoftKeyStore.signer ops (SoftKeyStore.new ops hmacSha512 seed accountType) index

/-- Writing a buffer of chunks to an open file: each chunk is appended
by one write_all call; the oracle says whether the i-th call succeeds.
On the first failure the loop stops, leaving what was already written.
Models the loop body of the local write helper of main.rs. -/
def writeChunks (writeOk : Nat → Bool) :
    List (List Nat) → Nat → List Nat → Except Unit Unit × List Nat
  | [], _, acc => (.ok (), acc)
  | c :: rest, i, acc =>
    if writeOk i then writeChunks writeOk rest (i + 1) (acc ++ c)
    else (.error (), acc)

/-- The local write helper of main.rs: open the destination path itself
with create, write and truncate (so an existing file is emptied at
once), then write every chunk in order.  The openOk flag models whether
the open call succeeds; prev is the file's content before the call
(none when the file did not exist).  The result pairs the io::Result
with the file's content after the call. -/
def fileWrite (buf : List (List Nat)) (openOk : Bool) (writeOk : Nat → Bool)
    (prev : Option (List Nat)) : Except Unit Unit × Option (List Nat) :=
  if openOk then
    let r := writeChunks writeOk buf 0 []
    (r.1, some r.2)
  else (.error (), prev)

/-- An observable step of the GenKey arm: generating the fresh keypair
from the OS random number generator, or writing a file (identified by
the extension set on the given path) with the given contents. -/
inductive GenKeyEvent where
  | keypairGenerated
  | wrote (ext : String) (contents : List Nat)
deriving DecidableEq

/-- The GenKey arm of really_inner_main: reject a path that has an
extension; otherwise generate a keypair (secretkey and publickey model
the bytes the OS RNG produced), write the public key file under the
pub extension, then write the secret key file under the sec extension.
The hasExtension flag models Path::extension().is_some() (path handling
itself is an external collaborator); writeOk models the success of the
two write calls.  The result pairs the arm's outcome with the ordered
trace of observable steps. -/
def genKeyArm (hasExtension : Bool) (network : Network)
    (secretkey publickey : List Nat) (writeOk : Nat → Bool) :
    Except String Unit × List GenKeyEvent :=
  if hasExtension then
    (.error "please provide a filename with no extension", [])
  else if writeOk 0 then
    if writeOk 1 then
      (.ok (), [.keypairGenerated,
                .wrote "pub" (publicFileBytes network publickey),
                .wrote "sec" (secretFileBytes network secretkey publickey)])
    else
      (.error "io error", [.keypairGenerated,
                           .wrote "pub" (publicFileBytes network publickey)])
  else
    (.error "io error", [.keypairGenerated])

/-- An observable step of the SetKey arm: constructing the hardware
keystore (the call to the hardware closure, which opens the device), or
sending the public key to the device. -/
inductive SetKeyEvent where
  | hardwareConstructed
  | pubkeySet
deriving DecidableEq

/-- The SetKey arm of really_inner_main.  The parsed argument is the
result of parse_public on the key file's bytes: the 32 public key bytes
and the network the file declares.  (parse_public itself lives in
keyparse.rs, which is not part of the sources; the arm consumes only
its result.)  If the file's network differs from the run's network the
arm returns the mismatch error at once; only otherwise is the hardware
keystore constructed and the key sent.  The hardware parameter models
the outcome of constructing the hardware keystore. -/
def setKeyArm (parsed : Except String (List Nat × Network)) (network : Network)
    (hardware : Except String Unit) :
    Except String Unit × List SetKeyEvent :=
  match parsed with
  | .error e => (.error e, [])
  | .ok (_key, keyNetwork) =>
    if keyNetwork ≠ network then
      (.error ("Key is for network " ++ keyNetwork.nameString ++ ", not " ++
               network.nameString), [])
    else
      match hardware with
      | .error e => (.error e, [.hardwareConstructed])
      | .ok () => (.ok (), [.hardwareConstructed, .pubkeySet])

/-- A small concrete instance of the extended-key operations, used to
evaluate the parametrized theorems on explicit inputs. -/
def natOps : XPrvOps Nat where
  fromNonextendedForce := fun km cc => km.length + 100 * cc.length
  derive := fun x i => 2 * x + i
  pubkey := fun x => [x % 256]

/-- A small concrete stand-in for the HMAC-SHA512 oracle, returning a
fixed 64-byte digest, used to evaluate the parametrized theorems on
explicit inputs. -/
def natHmac : List Nat → List Nat → List Nat :=
  fun _ _ => List.range 64

/-! ## Theorems -/

/-- Every base64 alphabet byte is at least 43, so in particular it is
never the newline byte 10. -/
theorem b64Char_ge (i : Nat) : 43 ≤ b64Char i := by
  unfold b64Char
  split
  · omega
  · split
    · omega
    · split
      · omega
      · split
        · omega
        · omega

/-- No base64 alphabet byte is the newline byte 10. -/
theorem b64Char_ne_newline (i : Nat) : b64Char i ≠ 10 := by
  have := b64Char_ge i
  omega

/-- No byte of a base64 encoding is the newline byte 10. -/
theorem base64Encode_no_newline (l : List Nat) : ∀ b ∈ base64Encode l, b ≠ 10 := by
  induction l using base64Encode.induct with
  | case1 a b c rest ih =>
    intro x hx
    rw [base64Encode] at hx
    rcases List.mem_append.mp hx with h | h
    · simp only [b64Group3, List.mem_cons, List.not_mem_nil, or_false] at h
      rcases h with h | h | h | h <;> (subst h; exact b64Char_ne_newline _)
    · exact ih x h
  | case2 a b =>
    intro x hx
    simp only [base64Encode, b64Group2, List.mem_cons, List.not_mem_nil, or_false] at hx
    rcases hx with h | h | h | h <;> subst h
    · exact b64Char_ne_newline _
    · exact b64Char_ne_newline _
    · exact b64Char_ne_newline _
    · omega
  | case3 a =>
    intro x hx
    simp only [base64Encode, b64Group1, List.mem_cons, List.not_mem_nil, or_false] at hx
    rcases hx with h | h | h | h <;> subst h
    · exact b64Char_ne_newline _
    · exact b64Char_ne_newline _
    · omega
    · omega
  | case4 =>
    intro x hx
    simp [base64Encode] at hx

/-- Split a byte string at every newline byte 10.  A string ending in a
newline yields a trailing empty segment. -/
def splitNl : List Nat → List (List Nat)
  | [] => [[]]
  | b :: rest =>
    if b = 10 then [] :: splitNl rest
    else
      match splitNl rest with
      | [] => [[b]]
      | l :: ls => (b :: l) :: ls

theorem splitNl_ne_nil (l : List Nat) : splitNl l ≠ [] := by
  induction l with
  | nil => simp [splitNl]
  | cons b rest ih =>
    rw [splitNl]
    split
    · simp
    · match h : splitNl rest with
      | [] => simp
      | l :: ls => simp

/-- Splitting a string that starts with a newline-free segment followed
by a newline yields that segment and then the split of the remainder. -/
theorem splitNl_append (xs ys : List Nat) (hxs : ∀ b ∈ xs, b ≠ 10) :
    splitNl (xs ++ 10 :: ys) = xs :: splitNl ys := by
  induction xs with
  | nil => simp [splitNl]
  | cons x xs ih =>
    have hx : x ≠ 10 := hxs x (List.mem_cons_self x xs)
    have ih2 := ih (fun b hb => hxs b (List.mem_cons_of_mem x hb))
    rw [List.cons_append, splitNl]
    split
    · omega
    · rw [ih2]

/-- The folded path of SoftKeyStore::new is exactly the source's chain
of four derive calls. -/
theorem new_unfolds_to_derive_chain {X : Type} (ops : XPrvOps X)
    (hmacSha512 : List Nat → List Nat → List Nat)
    (seed : List Nat) (accountType : Nat) :
    (SoftKeyStore.new ops hmacSha512 seed accountType).xprv =
      ops.derive
        (ops.derive
          (ops.derive
            (ops.derive
              (ops.fromNonextendedForce (masterKeyMaterial hmacSha512 seed)
                (masterChainCode hmacSha512 seed))
              0x8000002C)
            0x80000162)
          (accountType ||| HARDENED))
        0 := rfl

/-- A number with the hardened bit or-ed in is hardened. -/
theorem hardened_le_lor (i : Nat) : HARDENED ≤ i ||| HARDENED := by
  by_contra h
  push_neg at h
  have h1 : Nat.testBit (i ||| HARDENED) 31 = true := by
    rw [HARDENED, Nat.testBit_lor, Nat.testBit_two_pow_self]
    simp
  have h2 : Nat.testBit (i ||| HARDENED) 31 = false := by
    rw [HARDENED] at h
    exact Nat.testBit_lt_two_pow h
  rw [h1] at h2
  exact Bool.noConfusion h2

/-- C1 (counterexample): the claimed layout MAGIC(22) followed by the
one-byte supported version value does not match the file the GenKey arm
writes: no 22-byte magic makes the equation hold, already on the
all-zero secret key and the all-seven public key for Kusama, because
byte 22 of the actual file is 0 (the high half of the two-byte
little-endian version field), not the version value 1. -/
theorem secret_file_claimed_layout_false :
    ¬ ∃ MAGIC : List Nat, MAGIC.length = 22 ∧
      secretFileBytes Network.kusama (List.replicate 32 0) (List.replicate 32 7) =
        MAGIC ++ [KEY_VERSION] ++ [Network.toByte Network.kusama] ++
          List.replicate 32 0 ++ List.replicate 32 7 := by
  rintro ⟨M, hlen, heq⟩
  have h2 : (secretFileBytes Network.kusama (List.replicate 32 0)
      (List.replicate 32 7)).drop 22 =
      [KEY_VERSION] ++ [Network.toByte Network.kusama] ++
        List.replicate 32 0 ++ List.replicate 32 7 := by
    rw [heq, ← hlen]
    simp only [List.append_assoc]
    rw [List.drop_left]
  exact absurd h2 (by decide)

/-- C1 (amended): the secret key file emitted by GenKey is exactly
KEY_MAGIC(21) || VERSION(2, little-endian) || NETWORK(1) || SECRET(32)
|| PUBLIC(32), where KEY_MAGIC is the fixed 21-byte printable-ASCII
string Ledgeracio Secret Key and the version field is the two-byte
little-endian encoding of the single supported version value 1; the
whole file is 88 bytes, and the GenKey arm writes exactly this content
under the sec extension. -/
theorem secret_file_layout (n : Network) (sk pk : List Nat)
    (hsk : sk.length = 32) (hpk : pk.length = 32) :
    secretFileBytes n sk pk =
      KEY_MAGIC ++ [1, 0] ++ [n.toByte] ++ sk ++ pk ∧
    KEY_MAGIC.length = 21 ∧
    (KEY_MAGIC.all fun b => decide (32 ≤ b) && decide (b < 127)) = true ∧
    u16ToLeBytes KEY_VERSION = [1, 0] ∧
    (secretFileBytes n sk pk).length = 88 ∧
    (genKeyArm false n sk pk (fun _ => true)).2 =
      [.keypairGenerated,
       .wrote "pub" (publicFileBytes n pk),
       .wrote "sec" (secretFileBytes n sk pk)] := by
  refine ⟨rfl, by decide, by decide, by decide, ?_, rfl⟩
  simp [secretFileBytes, KEY_MAGIC, u16ToLeBytes, KEY_VERSION, hsk, hpk]

/-- C1 (witness): the amended layout evaluated on the all-zero secret
key and the all-seven public key for Kusama. -/
theorem secret_file_layout_witness :
    secretFileBytes Network.kusama (List.replicate 32 0) (List.replicate 32 7) =
      KEY_MAGIC ++ [1, 0] ++ [Network.toByte Network.kusama] ++
        List.replicate 32 0 ++ List.replicate 32 7 ∧
    (secretFileBytes Network.kusama (List.replicate 32 0)
      (List.replicate 32 7)).length = 88 :=
  ⟨(secret_file_layout Network.kusama _ _ (by decide) (by decide)).1,
   (secret_file_layout Network.kusama _ _ (by decide) (by decide)).2.2.2.2.1⟩

/-- C2 (counterexample): the claimed path — every component hardened,
including (chain=0, hardened) — does not match the path
SoftKeyStore::new actually derives: already for account type 0 there is
no coin type making the equation hold, because the fourth derivation
index in the code is the literal 0, a soft (non-hardened) step, not
0 with the hardened bit set. -/
theorem new_derivation_path_claimed_false :
    ¬ ∃ coin : Nat, ∀ accountType : Nat,
      newDerivationPath accountType =
        [44 ||| HARDENED, coin ||| HARDENED,
         accountType ||| HARDENED, 0 ||| HARDENED] := by
  rintro ⟨c, h⟩
  have h0 := h 0
  simp [newDerivationPath, HARDENED] at h0

/-- C2 (amended): SoftKeyStore::new derives from the master key, in
order, (purpose=44, hardened), (coin-type=0x162, hardened — the same
fixed value whatever the network, since new takes no network input),
(account-type, hardened), and then (chain=0, NOT hardened: the literal
index 0, a soft derivation step); the fifth, caller-supplied index is
derived by the signer with the hardened bit or-ed in, hence hardened. -/
theorem new_derivation_path {X : Type} (ops : XPrvOps X) (ks : SoftKeyStore X)
    (accountType index : Nat) (hidx : index < HARDENED) :
    newDerivationPath accountType =
      [44 ||| HARDENED, 0x162 ||| HARDENED, accountType ||| HARDENED, 0] ∧
    isHardened (44 ||| HARDENED) ∧
    isHardened (0x162 ||| HARDENED) ∧
    isHardened (accountType ||| HARDENED) ∧
    ¬ isHardened 0 ∧
    SoftKeyStore.signer ops ks index =
      .ok ⟨ops.derive ks.xprv (index ||| HARDENED),
           ops.pubkey (ops.derive ks.xprv (index ||| HARDENED))⟩ ∧
    isHardened (index ||| HARDENED) := by
  have h44 : (44 ||| HARDENED : Nat) = 0x8000002C := by decide
  have hcoin : ((0x162 : Nat) ||| HARDENED) = 0x80000162 := by decide
  refine ⟨?_, by decide, by decide, hardened_le_lor accountType,
          by decide, ?_, hardened_le_lor index⟩
  · rw [newDerivationPath, h44, hcoin]
  · rw [SoftKeyStore.signer, if_neg (Nat.not_le.mpr hidx)]

/-- C2 (witness): the amended path statement evaluated at account
type 1 and signing index 4 on the concrete operations. -/
theorem new_derivation_path_witness :
    newDerivationPath 1 =
      [44 ||| HARDENED, 0x162 ||| HARDENED, 1 ||| HARDENED, 0] ∧
    ¬ isHardened 0 ∧
    isHardened (4 ||| HARDENED) :=
  ⟨(new_derivation_path natOps ⟨3, [9]⟩ 1 4 (by decide)).1,
   (new_derivation_path natOps ⟨3, [9]⟩ 1 4 (by decide)).2.2.2.2.1,
   (new_derivation_path natOps ⟨3, [9]⟩ 1 4 (by decide)).2.2.2.2.2.2⟩

/-- C3: for every 32-bit index, SoftKeyStore::signer fails with the
invalid-index error when the index is at least 2^31, and for every
smaller index it succeeds, returning a keystore handle holding the
hardened child key and exposing its account identifier (the public key
computed from that child key) and the key needed to sign. -/
theorem signer_index_guard {X : Type} (ops : XPrvOps X) (ks : SoftKeyStore X)
    (index : Nat) (_hrange : index < 2 ^ 32) :
    (2 ^ 31 ≤ index →
       SoftKeyStore.signer ops ks index =
         .error ("Invalid index " ++ toString index)) ∧
    (index < 2 ^ 31 →
       SoftKeyStore.signer ops ks index =
         .ok ⟨ops.derive ks.xprv (index ||| HARDENED),
              ops.pubkey (ops.derive ks.xprv (index ||| HARDENED))⟩) := by
  constructor
  · intro h
    rw [SoftKeyStore.signer, if_pos (show HARDENED ≤ index from h)]
  · intro h
    rw [SoftKeyStore.signer, if_neg (Nat.not_le.mpr (show index < HARDENED from h))]

/-- C3 (witness): the guard evaluated at the in-range index 7 and at
the out-of-range index 2^31 on the concrete operations. -/
theorem signer_index_guard_witness :
    SoftKeyStore.signer natOps ⟨5, [5]⟩ 7 =
      .ok ⟨natOps.derive 5 (7 ||| HARDENED),
           natOps.pubkey (natOps.derive 5 (7 ||| HARDENED))⟩ ∧
    SoftKeyStore.signer natOps ⟨5, [5]⟩ 2147483648 =
      .error ("Invalid index " ++ toString 2147483648) :=
  ⟨(signer_index_guard natOps ⟨5, [5]⟩ 7 (by decide)).2 (by decide),
   (signer_index_guard natOps ⟨5, [5]⟩ 2147483648 (by decide)).1 (by decide)⟩

/-- C4: when the SetKey arm is handed a parsed public key file whose
declared network differs from the network configured for the run, it
returns the network-mismatch error and its event trace is empty: the
hardware keystore is never constructed, whatever the outcome of
constructing it would have been. -/
theorem setkey_network_mismatch (key : List Nat) (keyNetwork network : Network)
    (hardware : Except String Unit) (hne : keyNetwork ≠ network) :
    setKeyArm (.ok (key, keyNetwork)) network hardware =
      (.error ("Key is for network " ++ keyNetwork.nameString ++ ", not " ++
               network.nameString), []) := by
  simp [setKeyArm, hne]

/-- C4 (witness): a Kusama public key file against a Polkadot run, with
a hardware keystore that would have been available. -/
theorem setkey_network_mismatch_witness :
    setKeyArm (.ok (List.replicate 32 0, Network.kusama)) Network.polkadot
        (.ok ()) =
      (.error ("Key is for network " ++ Network.kusama.nameString ++ ", not " ++
               Network.polkadot.nameString), []) :=
  setkey_network_mismatch (List.replicate 32 0) Network.kusama Network.polkadot
    (.ok ()) (by decide)

/-- When every write call succeeds, the write loop appends the whole
buffer to what was already written. -/
theorem writeChunks_all_ok (writeOk : Nat → Bool) (buf : List (List Nat))
    (i : Nat) (acc : List Nat)
    (h : ∀ j, j < buf.length → writeOk (i + j) = true) :
    writeChunks writeOk buf i acc = (.ok (), acc ++ buf.flatten) := by
  induction buf generalizing i acc with
  | nil => simp [writeChunks]
  | cons c rest ih =>
    have h0 : writeOk i = true := by simpa using h 0 (by simp)
    rw [writeChunks, if_pos h0]
    rw [ih (i + 1) (acc ++ c) (fun j hj => by
      have hh := h (j + 1) (by simpa using Nat.succ_lt_succ hj)
      rwa [show i + (j + 1) = i + 1 + j by omega] at hh)]
    simp

/-- When the k-th write call fails and all earlier ones succeed, the
write loop stops with an error, having appended exactly the first k
chunks. -/
theorem writeChunks_fail_at (writeOk : Nat → Bool) (buf : List (List Nat))
    (i : Nat) (acc : List Nat) (k : Nat) (hk : k < buf.length)
    (hfail : writeOk (i + k) = false)
    (hok : ∀ j, j < k → writeOk (i + j) = true) :
    writeChunks writeOk buf i acc = (.error (), acc ++ (buf.take k).flatten) := by
  induction buf generalizing i acc k with
  | nil => simp at hk
  | cons c rest ih =>
    cases k with
    | zero =>
      have h0 : writeOk i = false := by simpa using hfail
      rw [writeChunks, if_neg (by simp [h0])]
      simp
    | succ k' =>
      have h0 : writeOk i = true := by simpa using hok 0 (Nat.succ_pos k')
      rw [writeChunks, if_pos h0]
      rw [ih (i + 1) (acc ++ c) k' (by simpa using Nat.lt_of_succ_lt_succ hk)
        (by rwa [show i + 1 + k' = i + (k' + 1) by omega])
        (fun j hj => by
          have hh := hok (j + 1) (Nat.succ_lt_succ hj)
          rwa [show i + (j + 1) = i + 1 + j by omega] at hh)]
      simp

/-- C5 (counterexample): the claim that a failure part-way through a
persisting operation leaves no partial output in place is false for the
write helper of main.rs: writing the two chunks [1] and [2] over a file
previously holding [9], with the second write call failing, returns an
error yet leaves the file holding [1] — a partial, garbled output
(neither the old content nor the intended new content). -/
theorem write_not_atomic :
    ¬ ∀ (buf : List (List Nat)) (openOk : Bool) (writeOk : Nat → Bool)
        (prev : Option (List Nat)),
        (fileWrite buf openOk writeOk prev).1 = .error () →
        (fileWrite buf openOk writeOk prev).2 = prev := by
  intro h
  have h2 := h [[1], [2]] true (fun i => i == 0) (some [9]) rfl
  exact absurd h2 (by decide)

/-- C5 (amended): the write helper of main.rs opens the destination
path itself with truncate (destroying the previous content at once) and
writes the chunks in order with no write-then-rename or temp-file step:
if the open fails the previous content survives, if every write
succeeds the file holds the full concatenation of the chunks, and if
the k-th write fails the file is left holding exactly the concatenation
of the first k chunks — a partial output.  (The Sign arm persists its
binary allowlist with fs::write, which writes the destination directly
in the same way.) -/
theorem write_behaviour (buf : List (List Nat)) (writeOk : Nat → Bool)
    (prev : Option (List Nat)) :
    fileWrite buf false writeOk prev = (.error (), prev) ∧
    ((∀ i, i < buf.length → writeOk i = true) →
       fileWrite buf true writeOk prev = (.ok (), some buf.flatten)) ∧
    (∀ k, k < buf.length → writeOk k = false → (∀ i, i < k → writeOk i = true) →
       fileWrite buf true writeOk prev = (.error (), some (buf.take k).flatten)) := by
  refine ⟨by simp [fileWrite], ?_, ?_⟩
  · intro h
    rw [fileWrite, if_pos rfl,
      writeChunks_all_ok writeOk buf 0 [] (fun j hj => by simpa using h j hj)]
    simp
  · intro k hk hfail hok
    rw [fileWrite, if_pos rfl,
      writeChunks_fail_at writeOk buf 0 [] k hk (by simpa using hfail)
        (fun j hj => by simpa using hok j hj)]
    simp

/-- C5 (witness): the failure case of the amended statement evaluated
on the buffer [[1], [2]] with the second write failing: the file is
left holding [1]. -/
theorem write_behaviour_witness :
    fileWrite [[1], [2]] true (fun i => i == 0) (some [9]) =
      (.error (), some (([[1], [2]].take 1).flatten)) :=
  (write_behaviour [[1], [2]] (fun i => i == 0) (some [9])).2.2 1 (by decide)
    (by decide) (by decide)

/-- C6: for every seed, the master extended key is computed by
HMAC-SHA512-hashing the seed with the fixed label Bitcoin seed, and
whenever the digest has the 64 bytes SHA512 produces, the key material
is exactly its first 32 bytes, the chain code exactly its last 32
bytes, the two halves have length 32 and recombine to the digest, and
SoftKeyStore::new builds its extended key from precisely these two
halves before folding the derivation path over it. -/
theorem master_key_split (hmacSha512 : List Nat → List Nat → List Nat)
    (seed : List Nat) (hlen : (hmacSha512 bitcoinSeedLabel seed).length = 64) :
    masterKeyMaterial hmacSha512 seed = (hmacSha512 bitcoinSeedLabel seed).take 32 ∧
    masterChainCode hmacSha512 seed = (hmacSha512 bitcoinSeedLabel seed).drop 32 ∧
    (masterKeyMaterial hmacSha512 seed).length = 32 ∧
    (masterChainCode hmacSha512 seed).length = 32 ∧
    masterKeyMaterial hmacSha512 seed ++ masterChainCode hmacSha512 seed =
      hmacSha512 bitcoinSeedLabel seed ∧
    (∀ {X : Type} (ops : XPrvOps X) (accountType : Nat),
       (SoftKeyStore.new ops hmacSha512 seed accountType).xprv =
         (newDerivationPath accountType).foldl ops.derive
           (ops.fromNonextendedForce (masterKeyMaterial hmacSha512 seed)
             (masterChainCode hmacSha512 seed))) := by
  refine ⟨rfl, rfl, ?_, ?_, ?_, fun ops accountType => rfl⟩
  · simp [masterKeyMaterial, hlen]
  · simp [masterChainCode, hlen]
  · exact List.take_append_drop 32 (hmacSha512 bitcoinSeedLabel seed)

/-- C6 (witness): the split evaluated on the concrete 64-byte digest
oracle and the seed [1, 2, 3]. -/
theorem master_key_split_witness :
    (masterKeyMaterial natHmac [1, 2, 3]).length = 32 ∧
    (masterChainCode natHmac [1, 2, 3]).length = 32 ∧
    masterKeyMaterial natHmac [1, 2, 3] ++ masterChainCode natHmac [1, 2, 3] =
      natHmac bitcoinSeedLabel [1, 2, 3] :=
  ⟨(master_key_split natHmac [1, 2, 3] (by decide)).2.2.1,
   (master_key_split natHmac [1, 2, 3] (by decide)).2.2.2.1,
   (master_key_split natHmac [1, 2, 3] (by decide)).2.2.2.2.1⟩

/-- No byte of the public key file banner is the newline byte 10. -/
theorem bannerBytes_no_newline (n : Network) : ∀ b ∈ bannerBytes n, b ≠ 10 := by
  cases n <;> decide

/-- C7: the public key file emitted by GenKey consists of exactly two
newline-terminated text lines — splitting it at newlines yields the
banner, the base64 encoding of the public key, and the empty trailing
segment, and nothing else — where the banner is the fixed text
Ledgeracio version 1 public key for network followed by the name of the
target network, and the GenKey arm writes exactly this content under
the pub extension. -/
theorem public_file_two_lines (n : Network) (publickey : List Nat) :
    splitNl (publicFileBytes n publickey) =
      [bannerBytes n, base64Encode publickey, []] ∧
    bannerBytes n = bannerPrefix ++ n.nameBytes ∧
    (∀ secretkey, (genKeyArm false n secretkey publickey (fun _ => true)).2 =
      [.keypairGenerated,
       .wrote "pub" (publicFileBytes n publickey),
       .wrote "sec" (secretFileBytes n secretkey publickey)]) := by
  refine ⟨?_, rfl, fun secretkey => rfl⟩
  have h1 : publicFileBytes n publickey =
      bannerBytes n ++ 10 :: (base64Encode publickey ++ [10]) := by
    simp [publicFileBytes, bannerBytes]
  rw [h1, splitNl_append (bannerBytes n) _ (bannerBytes_no_newline n)]
  have h2 : base64Encode publickey ++ [10] =
      base64Encode publickey ++ 10 :: ([] : List Nat) := rfl
  rw [h2, splitNl_append (base64Encode publickey) []
    (base64Encode_no_newline publickey)]
  rfl

/-- C8: every SoftKeyStore value ever constructed satisfies the
invariant that its stored account identifier is the public key computed
from its stored private key: SoftKeyStore::new pairs the derived
private key with the public key computed from it, and any keystore a
successful signer call returns does the same — the public half is never
built independently of the private half. -/
theorem softkeystore_pubkey_invariant {X : Type} (ops : XPrvOps X)
    (hmacSha512 : List Nat → List Nat → List Nat) (seed : List Nat)
    (accountType : Nat) (ks ks' : SoftKeyStore X) (index : Nat)
    (hok : SoftKeyStore.signer ops ks index = .ok ks') :
    (SoftKeyStore.new ops hmacSha512 seed accountType).accountId =
      ops.pubkey (SoftKeyStore.new ops hmacSha512 seed accountType).xprv ∧
    ks'.accountId = ops.pubkey ks'.xprv := by
  refine ⟨rfl, ?_⟩
  rw [SoftKeyStore.signer] at hok
  split at hok
  · exact absurd hok (by simp)
  · rw [show ks' = ⟨ops.derive ks.xprv (index ||| HARDENED),
        ops.pubkey (ops.derive ks.xprv (index ||| HARDENED))⟩ from
      (Except.ok.injEq _ _ ▸ hok).symm]

/-- C8 (witness): the invariant evaluated on the concrete operations,
for the keystore built by new on the seed [1, 2, 3] and for the
keystore a successful signer call at index 4 returns — even when the
signer was called on a keystore whose own stored account identifier was
deliberately wrong. -/
theorem softkeystore_pubkey_invariant_witness :
    (SoftKeyStore.new natOps natHmac [1, 2, 3] 0).accountId =
      natOps.pubkey (SoftKeyStore.new natOps natHmac [1, 2, 3] 0).xprv ∧
    (SoftKeyStore.mk 2147483658 [10] : SoftKeyStore Nat).accountId =
      natOps.pubkey (SoftKeyStore.mk 2147483658 [10] : SoftKeyStore Nat).xprv :=
  ⟨(softkeystore_pubkey_invariant natOps natHmac [1, 2, 3] 0 ⟨3, [9]⟩
      ⟨2147483658, [10]⟩ 4 rfl).1,
   (softkeystore_pubkey_invariant natOps natHmac [1, 2, 3] 0 ⟨3, [9]⟩
      ⟨2147483658, [10]⟩ 4 rfl).2⟩

/-- C9: key derivation is deterministic — two invocations of the full
seed-to-signing-key derivation (SoftKeyStore::new followed by
SoftKeyStore::signer) on identical seeds, account types and indices
yield identical results; the derivation takes no randomness, time or
ambient state. -/
theorem derivation_deterministic {X : Type} (ops : XPrvOps X)
    (hmacSha512 : List Nat → List Nat → List Nat)
    (seed₁ seed₂ : List Nat) (acct₁ acct₂ idx₁ idx₂ : Nat)
    (hseed : seed₁ = seed₂) (hacct : acct₁ = acct₂) (hidx : idx₁ = idx₂) :
    deriveKeypair ops hmacSha512 seed₁ acct₁ idx₁ =
      deriveKeypair ops hmacSha512 seed₂ acct₂ idx₂ := by
  rw [hseed, hacct, hidx]

/-- C9 (witness): determinism evaluated on the concrete operations at
seed [1, 2, 3], account type 0, index 4. -/
theorem derivation_deterministic_witness :
    deriveKeypair natOps natHmac [1, 2, 3] 0 4 =
      deriveKeypair natOps natHmac [1, 2, 3] 0 4 :=
  derivation_deterministic natOps natHmac [1, 2, 3] [1, 2, 3] 0 0 4 4
    rfl rfl rfl

/-- C10: when the path given to GenKey has an extension, the arm fails
with the no-extension error and its event trace is empty — no keypair
is generated and no file is written; when the path has no extension and
the two writes succeed, the arm succeeds and its trace is exactly the
keypair generation followed by the write of the public key file and the
write of the secret key file. -/
theorem genkey_extension_guard (network : Network) (sk pk : List Nat)
    (writeOk : Nat → Bool) :
    genKeyArm true network sk pk writeOk =
      (.error "please provide a filename with no extension", []) ∧
    (writeOk 0 = true → writeOk 1 = true →
       genKeyArm false network sk pk writeOk =
         (.ok (), [.keypairGenerated,
                   .wrote "pub" (publicFileBytes network pk),
                   .wrote "sec" (secretFileBytes network sk pk)])) := by
  refine ⟨rfl, fun h0 h1 => ?_⟩
  simp [genKeyArm, h0, h1]

/-- C10 (witness): the success branch evaluated on a Kusama run with
both writes succeeding. -/
theorem genkey_extension_guard_witness :
    genKeyArm false Network.kusama [1] [2] (fun _ => true) =
      (.ok (), [.keypairGenerated,
                .wrote "pub" (publicFileBytes Network.kusama [2]),
                .wrote "sec" (secretFileBytes Network.kusama [1] [2])]) :=
  (genkey_extension_guard Network.kusama [1] [2] (fun _ => true)).2 rfl rfl

end Ledgeracio
